import Mathlib

/-!
Verification of the audio-transcription pipeline: a shallow embedding of its
audio utilities (mono reduction, resampling, WAV encoding), the stream
chunkers, the worker-message coordinator, and the worker's text
post-processing, with theorems settling the specification claims.

Audio samples are modelled as rationals (JavaScript floats behave as exact
reals on the inputs considered), byte buffers as lists of naturals, and
strings as lists of characters.
-/

namespace Transcription

/-! ### Mono reduction and resampling (src/src/utils/AudioUtils.js) -/

/-- A Web-Audio `AudioBuffer`: one list of samples per channel. -/
structure AudioBuffer where
  channels : List (List ℚ)
deriving DecidableEq

def numberOfChannels (b : AudioBuffer) : ℕ := b.channels.length

def getChannelData (b : AudioBuffer) (i : ℕ) : List ℚ := b.channels.getD i []

/-- `audioBufferToMono` (AudioUtils.js): single channel is returned as-is;
otherwise channel 0 and channel 1 are averaged elementwise into a buffer of
channel 0's length.  Channels beyond the second are ignored by the source. -/
def audioBufferToMono (b : AudioBuffer) : List ℚ :=
  if numberOfChannels b = 1 then getChannelData b 0
  else
    let left := getChannelData b 0
    let right := getChannelData b 1
    (List.range left.length).map (fun i => (left.getD i 0 + right.getD i 0) / 2)

/-- Modelled from the spec's words, for comparison with `audioBufferToMono`:
the elementwise average across all of the input's channels. -/
def monoAvgAllChannels (b : AudioBuffer) : List ℚ :=
  (List.range (getChannelData b 0).length).map
    (fun i => (b.channels.map (fun ch => ch.getD i 0)).sum / (numberOfChannels b : ℚ))

/-- `resampleAudio` (AudioUtils.js): linear-interpolation resampling whose
output length is the floor of `input_length / ratio`. -/
def resampleAudio (audioData : List ℚ) (inputSampleRate targetSampleRate : ℕ) : List ℚ :=
  if inputSampleRate = targetSampleRate then audioData
  else
    let ratio : ℚ := (inputSampleRate : ℚ) / (targetSampleRate : ℚ)
    let outputLength : ℕ := (⌊(audioData.length : ℚ) / ratio⌋).toNat
    (List.range outputLength).map (fun (i : ℕ) =>
      let index : ℚ := (i : ℚ) * ratio
      let indexFloor : ℕ := (⌊index⌋).toNat
      let indexCeil : ℕ := min (indexFloor + 1) (audioData.length - 1)
      let fraction : ℚ := index - (indexFloor : ℚ)
      audioData.getD indexFloor 0 * (1 - fraction) + audioData.getD indexCeil 0 * fraction)

namespace AudioFileReader

/-- `AudioFileReader.resampleAudio` (src/unnamed/part_000): linear-interpolation
resampling whose output length is the rounding of `input_length / ratio`; when
the upper bracket index would leave the input it returns the sample at the
floored index. -/
def resampleAudio (audioData : List ℚ) (sourceSampleRate targetSampleRate : ℕ) : List ℚ :=
  if sourceSampleRate = targetSampleRate then audioData
  else
    let ratio : ℚ := (sourceSampleRate : ℚ) / (targetSampleRate : ℚ)
    let newLength : ℕ := (round ((audioData.length : ℚ) / ratio)).toNat
    (List.range newLength).map (fun (i : ℕ) =>
      let sourceIndex : ℚ := (i : ℚ) * ratio
      let index : ℕ := (⌊sourceIndex⌋).toNat
      let fraction : ℚ := sourceIndex - (index : ℚ)
      if index + 1 < audioData.length then
        audioData.getD index 0 * (1 - fraction) + audioData.getD (index + 1) 0 * fraction
      else
        audioData.getD index 0)

end AudioFileReader

/-- Modelled from the spec's words: the linear interpolation of the two source
samples bracketing the fractional position `pos`, clamping to the last source
sample when the upper bracket would exceed bounds. -/
def lerpAt (data : List ℚ) (pos : ℚ) : ℚ :=
  let lo : ℕ := (⌊pos⌋).toNat
  let hi : ℕ := min (lo + 1) (data.length - 1)
  let frac : ℚ := pos - (lo : ℚ)
  data.getD lo 0 * (1 - frac) + data.getD hi 0 * frac

/-! ### WAV encoding (`convertToWAV`, src/src/managers/AudioManager.js) -/

/-- `Math.max(-1, Math.min(1, x))`. -/
def clampJS (x : ℚ) : ℚ := max (-1) (min 1 x)

/-- Truncation toward zero: the integer conversion `DataView.setInt16`
applies to its numeric argument. -/
def truncQ (q : ℚ) : ℤ := if 0 ≤ q then ⌊q⌋ else ⌈q⌉

/-- Little-endian byte pair written by `setUint16`. -/
def u16le (v : ℕ) : List ℕ := [v % 256, v / 256 % 256]

/-- Little-endian byte quadruple written by `setUint32`. -/
def u32le (v : ℕ) : List ℕ := [v % 256, v / 256 % 256, v / 65536 % 256, v / 16777216 % 256]

/-- Little-endian two's-complement byte pair written by `setInt16`. -/
def i16le (v : ℤ) : List ℕ := u16le (v % 65536).toNat

/-- The two PCM16 bytes `convertToWAV` writes for one sample:
`view.setInt16(offset, Math.max(-1, Math.min(1, s)) * 0x7fff, true)`. -/
def pcm16Sample (s : ℚ) : List ℕ := i16le (truncQ (clampJS s * 32767))

/-- `convertToWAV` (AudioManager.js): 44-byte RIFF/WAVE header followed by the
clamped, scaled, truncated samples as little-endian signed 16-bit values. -/
def convertToWAV (samples : List ℚ) (sampleRate channels : ℕ) : List ℕ :=
  let length := samples.length
  [82, 73, 70, 70] ++ u32le (36 + length * 2) ++ [87, 65, 86, 69] ++
  [102, 109, 116, 32] ++ u32le 16 ++ u16le 1 ++ u16le channels ++
  u32le sampleRate ++ u32le (sampleRate * channels * 2) ++ u16le (channels * 2) ++ u16le 16 ++
  [100, 97, 116, 97] ++ u32le (length * 2) ++
  samples.flatMap pcm16Sample

/-! ### File chunking (`splitAudioChunks`, src/src/managers/AudioManager.js)

The JavaScript `for (let i = 0; i < samples.length; i += stepSize)` loop is
embedded with an explicit fuel argument (structural recursion so that the
kernel can evaluate it); the wrappers supply fuel exceeding the iteration
count.  A zero step size never terminates in the source; here the fuel runs
out instead. -/

/-- `Math.floor(seconds * sampleRate)`, as the source computes sample counts. -/
def samplesOf (seconds : ℚ) (sampleRate : ℕ) : ℕ := (⌊seconds * (sampleRate : ℚ)⌋).toNat

def splitLoop (samples : List ℚ) (chunkSamples stepSize sampleRate : ℕ) :
    ℕ → ℕ → List (List ℚ)
  | 0, _ => []
  | fuel + 1, i =>
    if i < samples.length then
      let endi := min (i + chunkSamples) samples.length
      let chunk := (samples.drop i).take (endi - i)
      let kept := if (sampleRate : ℚ) * (1 / 2) ≤ (chunk.length : ℚ) then [chunk] else []
      if samples.length ≤ endi then kept
      else kept ++ splitLoop samples chunkSamples stepSize sampleRate fuel (i + stepSize)
    else []

/-- `splitAudioChunks` (AudioManager.js): fixed-size windows advanced by
`chunkSamples - overlapSamples`, dropping windows shorter than half a second. -/
def splitAudioChunks (audioData : List ℚ) (chunkSize : ℚ) (sampleRate : ℕ) (overlap : ℚ) :
    List (List ℚ) :=
  let chunkSamples := samplesOf chunkSize sampleRate
  let overlapSamples := samplesOf overlap sampleRate
  let stepSize := chunkSamples - overlapSamples
  splitLoop audioData chunkSamples stepSize sampleRate (audioData.length + 1) 0

/-! ### Realtime chunking (`processAudioData` / `processRemainingBuffer`,
src/src/managers/AudioManager.js).  `Date.now()` timestamps are omitted. -/

/-- The chunk record the realtime path hands to its callbacks. -/
structure ChunkData where
  id : ℕ
  audioData : List ℚ
  sampleRate : ℕ
  duration : ℚ
  isFinal : Bool
deriving DecidableEq

/-- Rolling-window state of the realtime chunker. -/
structure RealtimeState where
  audioBuffer : List ℚ
  chunkCounter : ℕ
deriving DecidableEq

/-- The `while (this.audioBuffer.length >= chunkSamples)` loop of
`processAudioData`: emit the first `chunkSamples` samples, splice off
`stepSize`.  Returns the emitted chunks, the remaining buffer and counter.
The positivity conjuncts in the guard only exclude configurations on which
the source loop never terminates. -/
def processLoop (chunkSamples stepSize sampleRate : ℕ) (buffer : List ℚ) (counter : ℕ) :
    List ChunkData × List ℚ × ℕ :=
  if h : chunkSamples ≤ buffer.length ∧ 0 < chunkSamples ∧ 0 < stepSize then
    let chunk := buffer.take chunkSamples
    let cd : ChunkData :=
      ⟨counter, chunk, sampleRate, (chunk.length : ℚ) / (sampleRate : ℚ), false⟩
    let rest := processLoop chunkSamples stepSize sampleRate (buffer.drop stepSize) (counter + 1)
    (cd :: rest.1, rest.2)
  else ([], buffer, counter)
termination_by buffer.length
decreasing_by simp only [List.length_drop]; omega

/-- `processAudioData` (AudioManager.js): append the incoming samples to the
rolling buffer, then emit full chunks while enough samples are available. -/
def processAudioData (chunkSize overlapSize : ℚ) (sampleRate : ℕ)
    (st : RealtimeState) (audioData : List ℚ) : List ChunkData × RealtimeState :=
  let buffer := st.audioBuffer ++ audioData
  let chunkSamples := samplesOf chunkSize sampleRate
  let overlapSamples := samplesOf overlapSize sampleRate
  let stepSize := chunkSamples - overlapSamples
  let r := processLoop chunkSamples stepSize sampleRate buffer st.chunkCounter
  (r.1, ⟨r.2.1, r.2.2⟩)

/-- `processRemainingBuffer` (AudioManager.js): flush whatever remains as one
final chunk, with no minimum-length check; a no-op on an empty buffer. -/
def processRemainingBuffer (sampleRate : ℕ) (st : RealtimeState) :
    List ChunkData × RealtimeState :=
  if st.audioBuffer.length = 0 then ([], st)
  else
    ([⟨st.chunkCounter, st.audioBuffer, sampleRate,
        (st.audioBuffer.length : ℚ) / (sampleRate : ℚ), true⟩],
      ⟨[], st.chunkCounter + 1⟩)

/-! ### Worker-message coordination (src/src/managers/TranscriptionManager.js)

The pending table is a JavaScript `Map` from message id to the caller's
continuation; here it is the list of pending ids (`Map.delete` = filter the
id out), and settling a continuation is recorded as an emitted `Settlement`.
The 60-second `setTimeout` is modelled by a `fire` event that runs the
timeout body. -/

structure CoordState where
  messageId : ℕ
  pending : List ℕ
  loadingProgress : ℚ
deriving DecidableEq

inductive SettleKind where
  | resolved
  | rejectedError
  | rejectedTimeout
deriving DecidableEq

structure Settlement where
  id : ℕ
  kind : SettleKind
deriving DecidableEq

/-- Messages the worker posts back: progress messages carry no meaningful id
(the handler never reads one); success and error responses carry the id. -/
inductive WorkerMsg where
  | progress (id : Option ℕ) (p : ℚ)
  | success (id : ℕ)
  | error (id : ℕ)

/-- `handleWorkerMessage`: progress messages update `loadingProgress` and fire
the progress callback unconditionally; responses for unknown ids are warned
about and dropped; known ids are deleted and their continuation settled. -/
def handleWorkerMessage (s : CoordState) (m : WorkerMsg) : CoordState × Option Settlement :=
  match m with
  | .progress _ p => ({ s with loadingProgress := p }, none)
  | .success id =>
    if id ∈ s.pending then
      ({ s with pending := s.pending.filter (fun x => x ≠ id) }, some ⟨id, .resolved⟩)
    else (s, none)
  | .error id =>
    if id ∈ s.pending then
      ({ s with pending := s.pending.filter (fun x => x ≠ id) }, some ⟨id, .rejectedError⟩)
    else (s, none)

/-- `sendWorkerMessage`: allocate `++this.messageId`, insert it into the
pending table, post the message; returns the new state and the id. -/
def sendWorkerMessage (s : CoordState) : CoordState × ℕ :=
  ({ s with messageId := s.messageId + 1, pending := s.pending ++ [s.messageId + 1] },
    s.messageId + 1)

/-- The body of the 60-second `setTimeout` in `sendWorkerMessage`: if the id
is still pending, delete it and reject with the timeout failure. -/
def fireTimeout (s : CoordState) (id : ℕ) : CoordState × Option Settlement :=
  if id ∈ s.pending then
    ({ s with pending := s.pending.filter (fun x => x ≠ id) }, some ⟨id, .rejectedTimeout⟩)
  else (s, none)

/-- The timeout bound passed to `setTimeout`, in milliseconds. -/
def workerTimeoutMs : ℕ := 60000

inductive CoordEvent where
  | send
  | deliver (m : WorkerMsg)
  | fire (id : ℕ)

def coordStep (s : CoordState) (e : CoordEvent) : CoordState × Option Settlement :=
  match e with
  | .send => ((sendWorkerMessage s).1, none)
  | .deliver m => handleWorkerMessage s m
  | .fire id => fireTimeout s id

def coordRun (s : CoordState) : List CoordEvent → CoordState × List Settlement
  | [] => (s, [])
  | e :: es =>
    let r := coordStep s e
    let rest := coordRun r.1 es
    (rest.1, r.2.toList ++ rest.2)

/-- The constructor state: `messageId = 0`, empty pending map. -/
def coordInit : CoordState := ⟨0, [], 0⟩

/-- Invariant: every pending id was allocated by some past send, so it is at
most the current `messageId`. -/
def PendingLe (s : CoordState) : Prop := ∀ i ∈ s.pending, i ≤ s.messageId

/-! ### Repetition suppression (src/unnamed/part_004, the whisper worker)

Text is a list of characters.  The regular-expression classes are modelled on
the characters the source text can contain: `[.!?]` sentence terminators and
ASCII whitespace for `\s`.  The two run-consuming recursions carry explicit
fuel so that they stay structural; one character is consumed per step, so
`length + 1` fuel is always enough. -/

def isTermChar (c : Char) : Bool := c == '.' || c == '!' || c == '?'

def isSpaceChar (c : Char) : Bool := c == ' ' || c == '\t' || c == '\n' || c == '\r'

/-- `text.split(/[.!?]+/)`: split on maximal runs of sentence terminators. -/
def splitTermsFuel : ℕ → List Char → List (List Char)
  | 0, _ => [[]]
  | _ + 1, [] => [[]]
  | fuel + 1, c :: rest =>
    if isTermChar c then [] :: splitTermsFuel fuel (rest.dropWhile isTermChar)
    else
      match splitTermsFuel fuel rest with
      | [] => [[c]]
      | h :: t => (c :: h) :: t

/-- `String.prototype.trim`. -/
def trimChars (l : List Char) : List Char :=
  ((l.dropWhile isSpaceChar).reverse.dropWhile isSpaceChar).reverse

/-- `.replace(/\s+/g, ' ')`: collapse each whitespace run to a single space. -/
def collapseWSFuel : ℕ → List Char → List Char
  | 0, _ => []
  | _ + 1, [] => []
  | fuel + 1, c :: rest =>
    if isSpaceChar c then ' ' :: collapseWSFuel fuel (rest.dropWhile isSpaceChar)
    else c :: collapseWSFuel fuel rest

def collapseWS (l : List Char) : List Char := collapseWSFuel (l.length + 1) l

/-- `x.toLowerCase().replace(/\s+/g, ' ').trim()`, the normalization applied
before comparing sentences and chunk texts. -/
def normalizeText (s : List Char) : List Char :=
  trimChars (collapseWS (s.map Char.toLower))

/-- `levenshteinDistance` (part_004): the dynamic-programming matrix, built
row by row exactly as the nested loops fill it; the value returned is
`matrix[str2.length][str1.length]`. -/
def levenshteinDistance (str1 str2 : List Char) : ℕ :=
  let finalRow := (List.range str2.length).foldl
    (fun prev i =>
      (List.range str1.length).foldl
        (fun cur j =>
          cur ++ [if str2.getD i ' ' = str1.getD j ' ' then prev.getD j 0
                  else min (prev.getD j 0) (min (cur.getD j 0) (prev.getD (j + 1) 0)) + 1])
        [i + 1])
    (List.range (str1.length + 1))
  finalRow.getD str1.length 0

/-- `calculateSimilarity` (part_004): `(max_len - edit_distance) / max_len`. -/
def calculateSimilarity (str1 str2 : List Char) : ℚ :=
  if str1 = str2 then 1
  else if str1.length = 0 ∨ str2.length = 0 then 0
  else
    let longer := if str2.length < str1.length then str1 else str2
    let shorter := if str2.length < str1.length then str2 else str1
    if longer.length = 0 then 1
    else ((longer.length : ℚ) - (levenshteinDistance longer shorter : ℚ)) / (longer.length : ℚ)

/-- The sentence loop of `removeRepetitiveText`: walk the sentences in order,
keeping a list of accepted sentences and the set of their normalized forms. -/
def sentenceWalk : List (List Char) → List (List Char) → List (List Char) → List (List Char)
  | [], cleaned, _ => cleaned
  | s :: rest, cleaned, seen =>
    let normalized := normalizeText s
    if normalized ∈ seen then sentenceWalk rest cleaned seen
    else if seen.any (fun t => decide ((4 : ℚ) / 5 < calculateSimilarity normalized t)) then
      sentenceWalk rest cleaned seen
    else sentenceWalk rest (cleaned ++ [s]) (seen ++ [normalized])

/-- `cleanedSentences.join('. ').trim()`. -/
def joinSentences (l : List (List Char)) : List Char :=
  trimChars (List.intercalate ['.', ' '] l)

/-- `removeRepetitiveText` (part_004). -/
def removeRepetitiveText (text : List Char) : List Char :=
  if text.length < 10 then text
  else
    let sentences :=
      ((splitTermsFuel (text.length + 1) text).map trimChars).filter
        (fun s => decide (0 < s.length))
    if sentences.length ≤ 1 then text
    else joinSentences (sentenceWalk sentences [] [])

/-- A timestamped transcription chunk record `{text, timestamp: [start, end]}`. -/
structure TChunk where
  text : List Char
  timestamp : ℚ × Option ℚ
deriving DecidableEq

/-- The loop of `deduplicateChunks`: chunks with falsy (empty) text are
skipped; a chunk whose normalized text is more than 80% similar to an
already-kept one is dropped, so the earlier occurrence survives. -/
def chunkWalk : List TChunk → List TChunk → List (List Char) → List TChunk
  | [], kept, _ => kept
  | c :: rest, kept, seen =>
    if c.text.length = 0 then chunkWalk rest kept seen
    else
      let normalizedText := normalizeText c.text
      if seen.any (fun t => decide ((4 : ℚ) / 5 < calculateSimilarity normalizedText t)) then
        chunkWalk rest kept seen
      else chunkWalk rest (kept ++ [c]) (seen ++ [normalizedText])

/-- `deduplicateChunks` (part_004). -/
def deduplicateChunks (chunks : List TChunk) : List TChunk :=
  if chunks.length ≤ 1 then chunks else chunkWalk chunks [] []

/-! ### Token-accumulator decoding (src/unnamed/part_004)

`chunks_to_process` is the token accumulator: a list of segments
`{tokens, finalised}`.  The tokenizer's `decode` is an external collaborator,
passed in as a function.  `Math.random()` in `calculateConfidence` and
`Date.now()` are modelled as explicit inputs. -/

/-- One accumulator segment `{tokens, finalised}`. -/
structure Segment where
  tokens : List ℕ
  finalised : Bool
deriving DecidableEq

/-- The caller-visible transcript event `{text, chunks, is_partial}`. -/
structure TranscriptEvent where
  text : List Char
  chunks : List TChunk
  isPartial : Bool
deriving DecidableEq

/-- The fallback decoding of `callback_function` (part_004): join the decoded
finalised non-empty segments with spaces, and emit one chunk record per
finalised segment with an approximate timestamp. -/
def fallbackDecode (tok : List ℕ → List Char) (timePrecision : ℚ) (segs : List Segment) :
    List Char × List TChunk :=
  let decodedText :=
    List.intercalate [' ']
      ((segs.filter (fun c => c.finalised && c.tokens.length != 0)).map (fun c => tok c.tokens))
  let chunks :=
    ((segs.filter (fun c => c.finalised)).enum).map
      (fun p => TChunk.mk (tok p.2.tokens) ((p.1 : ℚ) * timePrecision * 100, none))
  (decodedText, chunks)

/-- The partial `TranscriptEvent` posted by `callback_function`, together with
the accumulator it leaves behind (decoding reads but never writes it). -/
def decodePartialStep (tok : List ℕ → List Char) (timePrecision : ℚ) (segs : List Segment) :
    TranscriptEvent × List Segment :=
  (⟨(fallbackDecode tok timePrecision segs).1, (fallbackDecode tok timePrecision segs).2, true⟩,
    segs)

/-- A raw transcription result as returned by the model pipeline. -/
structure RawResult where
  text : List Char
  chunks : List TChunk
  language : Option (List Char)
deriving DecidableEq

/-- `postProcessTranscription` (part_004). -/
def postProcessTranscription (r : RawResult) : RawResult :=
  if r.text.length = 0 then r
  else
    { r with
      text := removeRepetitiveText r.text,
      chunks := if 0 < r.chunks.length then deduplicateChunks r.chunks else r.chunks }

/-- `calculateConfidence` (part_004): a length heuristic plus a random
variation; `rand` stands for the `Math.random()` draw. -/
def calculateConfidence (r : RawResult) (rand : ℚ) : ℚ :=
  if (trimChars r.text).length = 0 then 0
  else
    let baseConfidence := min (((trimChars r.text).length : ℚ) / 100) (9 / 10)
    let variation := (rand - 1 / 2) * (1 / 10)
    max (1 / 10) (min (99 / 100) (baseConfidence + variation))

/-- The completion-time `transcriptionResult` assembled in
`processAudioChunk` (part_004); `processing_time` is omitted. -/
structure FinalResult where
  text : List Char
  confidence : ℚ
  language : List Char
  isPartial : Bool
  timestamp : ℕ
  chunks : List TChunk
deriving DecidableEq

def buildTranscriptionResult (result : RawResult) (optLanguage : Option (List Char))
    (optIsPartial : Bool) (rand : ℚ) (now : ℕ) : FinalResult :=
  let processed := postProcessTranscription result
  { text := trimChars processed.text,
    confidence := calculateConfidence processed rand,
    language := processed.language.getD (optLanguage.getD ("unknown".toList)),
    isPartial := optIsPartial,
    timestamp := now,
    chunks := processed.chunks }

/-- The `TranscriptEvent` carried by a completion-time result. -/
def finalEvent (r : FinalResult) : TranscriptEvent := ⟨r.text, r.chunks, r.isPartial⟩

/-! ## Theorems -/

/-- C8: `flush()` is idempotent: whatever state a flush leaves behind, an
immediately following flush emits no chunk (so invokes no chunk callback) and
returns that state unchanged. -/
theorem c8_flush_idempotent (sampleRate : ℕ) (st : RealtimeState) :
    processRemainingBuffer sampleRate ((processRemainingBuffer sampleRate st).2) =
      ([], (processRemainingBuffer sampleRate st).2) := by
  unfold processRemainingBuffer
  by_cases h : st.audioBuffer.length = 0 <;> simp [h]

/-- C9 counterexample: on a three-channel buffer, `audioBufferToMono` averages
only the first two channels, not all channels as the claim states. -/
theorem c9_counterexample :
    audioBufferToMono ⟨[[1], [0], [10]]⟩ ≠ monoAvgAllChannels ⟨[[1], [0], [10]]⟩ :=
  of_decide_eq_true (by with_unfolding_all rfl)

/-- C9 amended: `to_mono` returns a single-channel buffer as-is; for a
multi-channel buffer it returns a new buffer of channel 0's length averaging
channels 0 and 1 elementwise, which agrees with the all-channel average
exactly in the two-channel case. -/
theorem c9_to_mono_amended (b : AudioBuffer) :
    (numberOfChannels b = 1 → audioBufferToMono b = getChannelData b 0) ∧
    (numberOfChannels b ≠ 1 →
      (audioBufferToMono b).length = (getChannelData b 0).length ∧
      ∀ i, i < (getChannelData b 0).length →
        (audioBufferToMono b).getD i 0 =
          ((getChannelData b 0).getD i 0 + (getChannelData b 1).getD i 0) / 2) ∧
    (numberOfChannels b = 2 → audioBufferToMono b = monoAvgAllChannels b) := by
  refine ⟨fun h => by simp [audioBufferToMono, h], fun h => ⟨by simp [audioBufferToMono, h], ?_⟩,
    fun h2 => ?_⟩
  · intro i hi
    simp only [audioBufferToMono, if_neg h]
    rw [List.getD_eq_getElem?_getD, List.getElem?_map, List.getElem?_range hi]
    rfl
  · have hne : numberOfChannels b ≠ 1 := by rw [h2]; omega
    obtain ⟨c0, c1, hch⟩ := List.length_eq_two.mp h2
    simp only [audioBufferToMono, monoAvgAllChannels, if_neg hne, getChannelData,
      numberOfChannels, hch]
    refine List.map_congr_left (fun i _ => ?_)
    simp [List.getD]

/-- C9 witness: the amended theorem applied to a concrete stereo buffer. -/
theorem c9_witness :
    audioBufferToMono ⟨[[1], [3]]⟩ = monoAvgAllChannels ⟨[[1], [3]]⟩ :=
  (c9_to_mono_amended ⟨[[1], [3]]⟩).2.2 (by decide)

/-- C7: decoding a token-accumulator snapshot is deterministic and idempotent:
a partial decode leaves the accumulator unchanged and decoding again yields
the same event, and the completion-time result's transcript event (text,
chunk records, partial flag) does not depend on the `Math.random()` draw or
the `Date.now()` timestamp. -/
theorem c7_decode_deterministic :
    (∀ (tok : List ℕ → List Char) (tp : ℚ) (segs : List Segment),
        (decodePartialStep tok tp segs).2 = segs ∧
        (decodePartialStep tok tp ((decodePartialStep tok tp segs).2)).1 =
          (decodePartialStep tok tp segs).1) ∧
    (∀ (result : RawResult) (lang : Option (List Char)) (part : Bool) (rand1 rand2 : ℚ)
        (now1 now2 : ℕ),
        finalEvent (buildTranscriptionResult result lang part rand1 now1) =
          finalEvent (buildTranscriptionResult result lang part rand2 now2)) :=
  ⟨fun _ _ _ => ⟨rfl, rfl⟩, fun _ _ _ _ _ _ _ => rfl⟩

/-- C3 counterexample: a progress-type event carrying an id with no pending
entry is not dropped with the coordinator state unchanged: it overwrites
`loadingProgress` (and fires the progress callback). -/
theorem c3_counterexample :
    (handleWorkerMessage ⟨5, [], 0⟩ (.progress (some 3) 50)).1 ≠ (⟨5, [], 0⟩ : CoordState) :=
  of_decide_eq_true (by with_unfolding_all rfl)

/-- C3 amended: when the 60-second timeout fires for a still-pending request,
its entry is removed and the caller is rejected with the timeout failure, and
no new request is created (no retry); a subsequently delivered success or
error response for an id with no pending entry - or a timeout firing again -
is dropped with the state unchanged; progress/token events, however, are not
id-correlated: they never touch the pending table and settle nothing, but
they do update the loading progress. -/
theorem c3_timeout_amended (s : CoordState) (id : ℕ) (h : id ∈ s.pending) :
    (fireTimeout s id =
        ({ s with pending := s.pending.filter (fun x => x ≠ id) },
          some ⟨id, .rejectedTimeout⟩) ∧
      id ∉ (fireTimeout s id).1.pending ∧
      (fireTimeout s id).1.messageId = s.messageId) ∧
    (∀ s2 : CoordState, id ∉ s2.pending →
      handleWorkerMessage s2 (.success id) = (s2, none) ∧
      handleWorkerMessage s2 (.error id) = (s2, none) ∧
      fireTimeout s2 id = (s2, none)) ∧
    (∀ (s2 : CoordState) (oid : Option ℕ) (p : ℚ),
      (handleWorkerMessage s2 (.progress oid p)).1.pending = s2.pending ∧
      (handleWorkerMessage s2 (.progress oid p)).2 = none ∧
      (handleWorkerMessage s2 (.progress oid p)).1.loadingProgress = p) ∧
    workerTimeoutMs = 60000 := by
  refine ⟨⟨by simp [fireTimeout, h], by simp [fireTimeout, h], by simp [fireTimeout, h]⟩,
    fun s2 h2 => ⟨by simp [handleWorkerMessage, h2], by simp [handleWorkerMessage, h2],
      by simp [fireTimeout, h2]⟩,
    fun s2 oid p => ⟨rfl, rfl, rfl⟩, rfl⟩

/-- C3 witness: the amended theorem at a concrete state with pending id 4. -/
theorem c3_witness :
    fireTimeout ⟨7, [4], 0⟩ 4 = (⟨7, [], 0⟩, some ⟨4, .rejectedTimeout⟩) ∧
    handleWorkerMessage ⟨7, [], 0⟩ (.success 4) = (⟨7, [], 0⟩, none) := by
  have h := c3_timeout_amended ⟨7, [4], 0⟩ 4 (by decide)
  exact ⟨h.1.1.trans (of_decide_eq_true (by with_unfolding_all rfl)),
    (h.2.1 ⟨7, [], 0⟩ (by decide)).1⟩

set_option maxRecDepth 100000 in
/-- C2: in the repetition-suppression walk a candidate sentence is dropped
exactly when its normalized form equals a kept one or is more than 0.8
similar to a kept one, and is kept otherwise; an exact duplicate sentence
appears only once in the output; a 0.95-similar sentence is dropped; a
0.5-similar sentence is kept; and the same rule deduplicates timestamped
chunk records, preserving the earlier occurrence. -/
theorem c2_repetition_suppression :
    (∀ (s : List Char) (rest cleaned seen : List (List Char)),
        sentenceWalk (s :: rest) cleaned seen =
          if normalizeText s ∈ seen ∨
              ∃ t ∈ seen, (4 : ℚ) / 5 < calculateSimilarity (normalizeText s) t then
            sentenceWalk rest cleaned seen
          else sentenceWalk rest (cleaned ++ [s]) (seen ++ [normalizeText s])) ∧
    removeRepetitiveText "abcd efg. abcd efg. wxyz".toList = "abcd efg. wxyz".toList ∧
    (calculateSimilarity "abcdefghijklmnopqrst".toList "abcdefghijklmnopqrsu".toList = 19 / 20 ∧
      removeRepetitiveText "abcdefghijklmnopqrst. abcdefghijklmnopqrsu".toList =
        "abcdefghijklmnopqrst".toList) ∧
    (calculateSimilarity "aaaaabbbbb".toList "aaaaaxxxxx".toList = 1 / 2 ∧
      removeRepetitiveText "aaaaabbbbb. aaaaaxxxxx".toList =
        "aaaaabbbbb. aaaaaxxxxx".toList) ∧
    (calculateSimilarity "hello".toList "hello".toList = 1 ∧
      deduplicateChunks
          [⟨"hello".toList, (0, some 1)⟩, ⟨"hello".toList, (1, some 2)⟩,
            ⟨"bye".toList, (2, none)⟩] =
        [⟨"hello".toList, (0, some 1)⟩, ⟨"bye".toList, (2, none)⟩]) := by
  refine ⟨?_, of_decide_eq_true (by with_unfolding_all rfl),
    ⟨of_decide_eq_true (by with_unfolding_all rfl), of_decide_eq_true (by with_unfolding_all rfl)⟩,
    ⟨of_decide_eq_true (by with_unfolding_all rfl), of_decide_eq_true (by with_unfolding_all rfl)⟩,
    of_decide_eq_true (by with_unfolding_all rfl), of_decide_eq_true (by with_unfolding_all rfl)⟩
  intro s rest cleaned seen
  by_cases h1 : normalizeText s ∈ seen
  · rw [sentenceWalk, if_pos h1, if_pos (Or.inl h1)]
  · by_cases h2 : ∃ t ∈ seen, (4 : ℚ) / 5 < calculateSimilarity (normalizeText s) t
    · have hany : (seen.any
          (fun t => decide ((4 : ℚ) / 5 < calculateSimilarity (normalizeText s) t))) = true := by
        rw [List.any_eq_true]
        obtain ⟨t, ht, hlt⟩ := h2
        exact ⟨t, ht, decide_eq_true hlt⟩
      rw [sentenceWalk, if_neg h1, if_pos hany, if_pos (Or.inr h2)]
    · have hany : ¬ (seen.any
          (fun t => decide ((4 : ℚ) / 5 < calculateSimilarity (normalizeText s) t))) = true := by
        rw [List.any_eq_true]
        rintro ⟨t, ht, hd⟩
        exact h2 ⟨t, ht, of_decide_eq_true hd⟩
      rw [sentenceWalk, if_neg h1, if_neg hany, if_neg (not_or.mpr ⟨h1, h2⟩)]

/-- If `i` is below the rounded output length then the fractional source
position `i * ratio` lies strictly inside the input. -/
lemma mul_ratio_lt_of_lt_round (len i : ℕ) (ratio : ℚ) (hr : 0 < ratio)
    (hi : i < (round ((len : ℚ) / ratio)).toNat) : (i : ℚ) * ratio < (len : ℚ) := by
  have h1 : (i : ℤ) < round ((len : ℚ) / ratio) := Int.lt_toNat.mp hi
  have h2 : ((i : ℚ) + 1) ≤ ((round ((len : ℚ) / ratio) : ℤ) : ℚ) := by exact_mod_cast h1
  have h3 : ((round ((len : ℚ) / ratio) : ℤ) : ℚ) ≤ (len : ℚ) / ratio + 1 / 2 := by
    rw [round_eq]; exact Int.floor_le _
  have h4 : (i : ℚ) < (len : ℚ) / ratio := by linarith
  calc (i : ℚ) * ratio < (len : ℚ) / ratio * ratio := mul_lt_mul_of_pos_right h4 hr
    _ = (len : ℚ) := div_mul_cancel₀ _ (ne_of_gt hr)

/-- C5 counterexample: `resampleAudio` (AudioUtils.js) on a three-sample input
downsampled 2:1 emits one sample, not the `round(input_length / ratio) = 2`
samples the claim states. -/
theorem c5_counterexample :
    (resampleAudio [1, 0, 0] 32000 16000).length ≠
      (round ((([1, 0, 0] : List ℚ).length : ℚ) / ((32000 : ℚ) / 16000))).toNat :=
  of_decide_eq_true (by with_unfolding_all rfl)

/-- C5 amended: for differing positive rates, each output sample of both
resamplers is the clamped linear interpolation at the fractional source
position `i * ratio`; but the output length is `floor(input_length / ratio)`
for `resampleAudio` in AudioUtils.js and `round(input_length / ratio)` for
the `AudioFileReader` copy. -/
theorem c5_resample_amended (audioData : List ℚ) (src tgt : ℕ)
    (hne : src ≠ tgt) (hs : 0 < src) (ht : 0 < tgt) :
    (resampleAudio audioData src tgt).length =
      (⌊(audioData.length : ℚ) / ((src : ℚ) / (tgt : ℚ))⌋).toNat ∧
    (AudioFileReader.resampleAudio audioData src tgt).length =
      (round ((audioData.length : ℚ) / ((src : ℚ) / (tgt : ℚ)))).toNat ∧
    (∀ i, i < (resampleAudio audioData src tgt).length →
      (resampleAudio audioData src tgt).getD i 0 =
        lerpAt audioData ((i : ℚ) * ((src : ℚ) / (tgt : ℚ)))) ∧
    (∀ i, i < (AudioFileReader.resampleAudio audioData src tgt).length →
      (AudioFileReader.resampleAudio audioData src tgt).getD i 0 =
        lerpAt audioData ((i : ℚ) * ((src : ℚ) / (tgt : ℚ)))) := by
  have hr : (0 : ℚ) < (src : ℚ) / (tgt : ℚ) :=
    div_pos (by exact_mod_cast hs) (by exact_mod_cast ht)
  refine ⟨by simp [resampleAudio, hne], by simp [AudioFileReader.resampleAudio, hne], ?_, ?_⟩
  · intro i hi
    simp only [resampleAudio, if_neg hne] at hi ⊢
    rw [List.length_map, List.length_range] at hi
    rw [List.getD_eq_getElem?_getD, List.getElem?_map, List.getElem?_range hi]
    rfl
  · intro i hi
    simp only [AudioFileReader.resampleAudio, if_neg hne] at hi ⊢
    rw [List.length_map, List.length_range] at hi
    rw [List.getD_eq_getElem?_getD, List.getElem?_map, List.getElem?_range hi]
    simp only [Option.map_some', Option.getD_some]
    have hlt : (i : ℚ) * ((src : ℚ) / (tgt : ℚ)) < (audioData.length : ℚ) :=
      mul_ratio_lt_of_lt_round audioData.length i _ hr hi
    have hlen : 0 < audioData.length := by
      rcases Nat.eq_zero_or_pos audioData.length with h0 | h0
      · exfalso
        rw [h0] at hlt
        have : (0 : ℚ) ≤ (i : ℚ) * ((src : ℚ) / (tgt : ℚ)) :=
          mul_nonneg (Nat.cast_nonneg i) (le_of_lt hr)
        simp only [Nat.cast_zero] at hlt
        linarith
      · exact h0
    have hfl : (⌊(i : ℚ) * ((src : ℚ) / (tgt : ℚ))⌋).toNat < audioData.length := by
      have h1 : ⌊(i : ℚ) * ((src : ℚ) / (tgt : ℚ))⌋ < (audioData.length : ℤ) :=
        Int.floor_lt.mpr (by exact_mod_cast hlt)
      omega
    by_cases hidx : (⌊(i : ℚ) * ((src : ℚ) / (tgt : ℚ))⌋).toNat + 1 < audioData.length
    · rw [if_pos hidx]
      have hmin : min ((⌊(i : ℚ) * ((src : ℚ) / (tgt : ℚ))⌋).toNat + 1)
          (audioData.length - 1) = (⌊(i : ℚ) * ((src : ℚ) / (tgt : ℚ))⌋).toNat + 1 := by
        omega
      simp only [lerpAt, hmin]
    · rw [if_neg hidx]
      have hmin : min ((⌊(i : ℚ) * ((src : ℚ) / (tgt : ℚ))⌋).toNat + 1)
          (audioData.length - 1) = (⌊(i : ℚ) * ((src : ℚ) / (tgt : ℚ))⌋).toNat := by
        omega
      simp only [lerpAt, hmin]
      ring

/-- C5 witness: the amended theorem at a three-sample input downsampled 2:1,
where the two output lengths differ. -/
theorem c5_witness :
    (resampleAudio [1, 0, 0] 32000 16000).length = 1 ∧
    (AudioFileReader.resampleAudio [1, 0, 0] 32000 16000).length = 2 := by
  have h := c5_resample_amended [1, 0, 0] 32000 16000 (by norm_num) (by norm_num) (by norm_num)
  exact ⟨h.1.trans (of_decide_eq_true (by with_unfolding_all rfl)),
    h.2.1.trans (of_decide_eq_true (by with_unfolding_all rfl))⟩

lemma pcm16Sample_length (s : ℚ) : (pcm16Sample s).length = 2 := rfl

lemma flatMap_pcm16_length (samples : List ℚ) :
    (samples.flatMap pcm16Sample).length = 2 * samples.length := by
  induction samples with
  | nil => rfl
  | cons s rest ih =>
    simp only [List.flatMap_cons, List.length_append, ih, pcm16Sample_length, List.length_cons]
    ring

lemma flatMap_pcm16_drop (i : ℕ) (samples : List ℚ) :
    (samples.flatMap pcm16Sample).drop (2 * i) = (samples.drop i).flatMap pcm16Sample := by
  induction i generalizing samples with
  | zero => simp
  | succ n ih =>
    cases samples with
    | nil => simp
    | cons s rest =>
      rw [List.flatMap_cons, show 2 * (n + 1) = (pcm16Sample s).length + 2 * n by
        rw [pcm16Sample_length]; ring]
      rw [List.drop_append, ih, List.drop_succ_cons]

/-- C6 counterexample: on the single sample `1/2` the emitted PCM payload is
the truncation `16383 = [255, 63]`, not the round-to-nearest encoding
`16384 = [0, 64]` the claim states. -/
theorem c6_counterexample :
    ((convertToWAV [(1 : ℚ) / 2] 16000 1).drop 44).take 2 ≠
      i16le (round (clampJS ((1 : ℚ) / 2) * 32767)) :=
  of_decide_eq_true (by with_unfolding_all rfl)

set_option maxHeartbeats 2000000 in
/-- C6 amended: `convertToWAV` returns `44 + 2n` bytes: `RIFF` at 0-3, `WAVE`
at 8-11, a `fmt ` sub-chunk recording format tag 1, the channel count, the
sample rate, byte rate `sampleRate * channels * 2`, block align
`channels * 2` and 16 bits per sample, a data sub-chunk whose size field is
`2n`, and a payload whose `i`-th sample is clamped to `[-1, 1]`, scaled by
32767 and truncated toward zero (the `DataView.setInt16` conversion, not
rounded to nearest), written little-endian. -/
theorem c6_encode_amended (samples : List ℚ) (sampleRate channels : ℕ) :
    (convertToWAV samples sampleRate channels).length = 44 + 2 * samples.length ∧
    (convertToWAV samples sampleRate channels).take 4 = [82, 73, 70, 70] ∧
    ((convertToWAV samples sampleRate channels).drop 8).take 4 = [87, 65, 86, 69] ∧
    ((convertToWAV samples sampleRate channels).drop 12).take 4 = [102, 109, 116, 32] ∧
    ((convertToWAV samples sampleRate channels).drop 20).take 2 = u16le 1 ∧
    ((convertToWAV samples sampleRate channels).drop 22).take 2 = u16le channels ∧
    ((convertToWAV samples sampleRate channels).drop 24).take 4 = u32le sampleRate ∧
    ((convertToWAV samples sampleRate channels).drop 28).take 4 =
      u32le (sampleRate * channels * 2) ∧
    ((convertToWAV samples sampleRate channels).drop 32).take 2 = u16le (channels * 2) ∧
    ((convertToWAV samples sampleRate channels).drop 34).take 2 = u16le 16 ∧
    ((convertToWAV samples sampleRate channels).drop 36).take 4 = [100, 97, 116, 97] ∧
    ((convertToWAV samples sampleRate channels).drop 40).take 4 =
      u32le (samples.length * 2) ∧
    ∀ i, i < samples.length →
      ((convertToWAV samples sampleRate channels).drop (44 + 2 * i)).take 2 =
        pcm16Sample (samples.getD i 0) := by
  refine ⟨?_, rfl, rfl, rfl, rfl, rfl, rfl, rfl, rfl, rfl, rfl, rfl, ?_⟩
  · simp only [convertToWAV, List.length_append, flatMap_pcm16_length, u16le, u32le,
      List.length_cons, List.length_nil]
  · intro i hi
    have hd : (convertToWAV samples sampleRate channels).drop (44 + 2 * i) =
        (samples.flatMap pcm16Sample).drop (2 * i) := by
      have h44 : (convertToWAV samples sampleRate channels).drop 44 =
          samples.flatMap pcm16Sample := rfl
      rw [← List.drop_drop, h44]
    rw [hd, flatMap_pcm16_drop, List.drop_eq_getElem_cons hi, List.flatMap_cons,
      show (2 : ℕ) = (pcm16Sample samples[i]).length from (pcm16Sample_length _).symm,
      List.take_left, List.getD_eq_getElem samples 0 hi]

/-- C6 witness: the amended theorem on the single sample `1/2`. -/
theorem c6_witness :
    (convertToWAV [(1 : ℚ) / 2] 16000 1).length = 46 ∧
    ((convertToWAV [(1 : ℚ) / 2] 16000 1).drop 44).take 2 = pcm16Sample ((1 : ℚ) / 2) := by
  have h := c6_encode_amended [(1 : ℚ) / 2] 16000 1
  refine ⟨h.1.trans (by norm_num), ?_⟩
  have hp := h.2.2.2.2.2.2.2.2.2.2.2.2 0 (by norm_num)
  simpa using hp

/-- Every chunk the `splitAudioChunks` loop keeps passed the half-second
minimum check. -/
lemma splitLoop_min_length (samples : List ℚ) (cs ss sr fuel : ℕ) :
    ∀ (i : ℕ) (c : List ℚ), c ∈ splitLoop samples cs ss sr fuel i →
      (sr : ℚ) * (1 / 2) ≤ (c.length : ℚ) := by
  induction fuel with
  | zero =>
    intro i c h
    simp [splitLoop] at h
  | succ n ih =>
    intro i c h
    simp only [splitLoop] at h
    split at h
    · split at h
      · split at h
        · rw [List.mem_singleton.mp h]
          assumption
        · simp at h
      · rcases List.mem_append.mp h with h1 | h2
        · split at h1
          · rw [List.mem_singleton.mp h1]
            assumption
          · simp at h1
        · exact ih _ _ h2
    · simp at h

/-- C4: every chunk `splitAudioChunks` emits has at least
`sampleRate * 0.5` samples (shorter windows are silently dropped), while the
final flush is exempt: on a non-empty rolling buffer it emits exactly the
remaining samples as one final chunk, however short, and clears the buffer. -/
theorem c4_minimum_chunk :
    (∀ (audioData : List ℚ) (chunkSize : ℚ) (sampleRate : ℕ) (overlap : ℚ) (c : List ℚ),
      c ∈ splitAudioChunks audioData chunkSize sampleRate overlap →
      (sampleRate : ℚ) * (1 / 2) ≤ (c.length : ℚ)) ∧
    (∀ (sampleRate : ℕ) (st : RealtimeState), st.audioBuffer ≠ [] →
      (processRemainingBuffer sampleRate st).1.map ChunkData.audioData = [st.audioBuffer] ∧
      (processRemainingBuffer sampleRate st).1.map ChunkData.isFinal = [true] ∧
      (processRemainingBuffer sampleRate st).2.audioBuffer = []) := by
  constructor
  · intro audioData chunkSize sr overlap c hc
    exact splitLoop_min_length audioData _ _ sr _ 0 c hc
  · intro sr st hst
    have hlen : ¬ st.audioBuffer.length = 0 := fun h => hst (List.length_eq_zero.mp h)
    simp [processRemainingBuffer, hlen]

/-- C4 witness: splitting five samples at 4 Hz with one-second windows keeps
the full window (the one-sample tail is dropped), and the flush emits a
single leftover sample. -/
theorem c4_witness :
    (4 : ℚ) * (1 / 2) ≤ (([1, 2, 3, 4] : List ℚ).length : ℚ) ∧
    (processRemainingBuffer 4 ⟨[5], 0⟩).1.map ChunkData.audioData = [[(5 : ℚ)]] := by
  constructor
  · exact c4_minimum_chunk.1 [1, 2, 3, 4, 5] 1 4 0 [1, 2, 3, 4]
      (of_decide_eq_true (by with_unfolding_all rfl))
  · exact (c4_minimum_chunk.2 4 ⟨[5], 0⟩ (by simp)).1

lemma processLoop_unfold_pos (cs ss sr : ℕ) (buffer : List ℚ) (ctr : ℕ)
    (h : cs ≤ buffer.length ∧ 0 < cs ∧ 0 < ss) :
    processLoop cs ss sr buffer ctr =
      (⟨ctr, buffer.take cs, sr, ((buffer.take cs).length : ℚ) / (sr : ℚ), false⟩ ::
          (processLoop cs ss sr (buffer.drop ss) (ctr + 1)).1,
        (processLoop cs ss sr (buffer.drop ss) (ctr + 1)).2) := by
  rw [processLoop, dif_pos h]

lemma processLoop_unfold_neg (cs ss sr : ℕ) (buffer : List ℚ) (ctr : ℕ)
    (h : ¬(cs ≤ buffer.length ∧ 0 < cs ∧ 0 < ss)) :
    processLoop cs ss sr buffer ctr = ([], buffer, ctr) := by
  rw [processLoop, dif_neg h]

/-- Characterization of the realtime loop's output: the `j`-th emitted chunk
is the `chunkSamples`-sample window at offset `stepSize * j` of the buffer,
and that window is full. -/
lemma processLoop_spec (cs ss sr : ℕ) (dummy : ChunkData) :
    ∀ (n : ℕ) (buffer : List ℚ), buffer.length ≤ n → ∀ (ctr j : ℕ),
      j < (processLoop cs ss sr buffer ctr).1.length →
      ((processLoop cs ss sr buffer ctr).1.getD j dummy).audioData =
          (buffer.drop (ss * j)).take cs ∧
        cs ≤ (buffer.drop (ss * j)).length := by
  intro n
  induction n with
  | zero =>
    intro buffer hb ctr j hj
    have hnil : buffer = [] := List.length_eq_zero.mp (Nat.le_zero.mp hb)
    subst hnil
    rw [processLoop, dif_neg (by intro hcon; simp only [List.length_nil] at hcon; omega)] at hj
    simp at hj
  | succ n ihn =>
    intro buffer hb ctr j hj
    by_cases hg : cs ≤ buffer.length ∧ 0 < cs ∧ 0 < ss
    · rw [processLoop, dif_pos hg] at hj ⊢
      cases j with
      | zero =>
        constructor
        · simp
        · simpa using hg.1
      | succ k =>
        have hlen : k < (processLoop cs ss sr (buffer.drop ss) (ctr + 1)).1.length := by
          simpa using hj
        have hble : (buffer.drop ss).length ≤ n := by
          rw [List.length_drop]
          omega
        have IH := ihn (buffer.drop ss) hble (ctr + 1) k hlen
        have harith : ss + ss * k = ss * (k + 1) := by ring
        constructor
        · simp only [List.getD_cons_succ]
          rw [IH.1, List.drop_drop, harith]
        · have h2 := IH.2
          rw [List.drop_drop, harith] at h2
          exact h2
    · rw [processLoop, dif_neg hg] at hj
      simp at hj

/-- C1: with `0 ≤ overlap < chunk_length`, consecutive chunks emitted by the
realtime chunker share exactly `overlap_samples = floor(overlap * rate)`
samples: the trailing `overlap_samples` of one chunk equal the leading
`overlap_samples` of the next, since each emission drops only
`chunk_samples - overlap_samples` from the window.  In the concrete scenario
(2.5 s chunks, 0.5 s overlap, 16 kHz, 6 s of input) the emitted chunks cover
offsets 0-2.5 s and 2.0-4.5 s, and the flush emits the final 4.0-6.0 s. -/
theorem c1_overlap (chunkSize overlap : ℚ) (sampleRate : ℕ)
    (h0 : 0 ≤ overlap) (hlt : overlap < chunkSize) :
    (∀ (st : RealtimeState) (audioData : List ℚ) (j : ℕ) (dummy : ChunkData),
      j + 1 < (processAudioData chunkSize overlap sampleRate st audioData).1.length →
      ((processAudioData chunkSize overlap sampleRate st audioData).1.getD j
            dummy).audioData.drop
          (samplesOf chunkSize sampleRate - samplesOf overlap sampleRate) =
        ((processAudioData chunkSize overlap sampleRate st audioData).1.getD (j + 1)
            dummy).audioData.take (samplesOf overlap sampleRate) ∧
      (((processAudioData chunkSize overlap sampleRate st audioData).1.getD j
            dummy).audioData.drop
          (samplesOf chunkSize sampleRate - samplesOf overlap sampleRate)).length =
        samplesOf overlap sampleRate) ∧
    (chunkSize = 5 / 2 → overlap = 1 / 2 →
      ∀ samples : List ℚ, samples.length = 96000 →
        (processAudioData chunkSize overlap 16000 ⟨[], 0⟩ samples).1.map
            ChunkData.audioData =
          [samples.take 40000, (samples.drop 32000).take 40000] ∧
        (processAudioData chunkSize overlap 16000 ⟨[], 0⟩ samples).2.audioBuffer =
          samples.drop 64000 ∧
        (samples.drop 64000).length = 32000 ∧
        (processRemainingBuffer 16000
            (processAudioData chunkSize overlap 16000 ⟨[], 0⟩ samples).2).1.map
            ChunkData.audioData = [samples.drop 64000] ∧
        (processRemainingBuffer 16000
            (processAudioData chunkSize overlap 16000 ⟨[], 0⟩ samples).2).1.map
            ChunkData.isFinal = [true]) := by
  have hos : samplesOf overlap sampleRate ≤ samplesOf chunkSize sampleRate := by
    have := Int.floor_le_floor
      (mul_le_mul_of_nonneg_right (le_of_lt hlt) (Nat.cast_nonneg (α := ℚ) sampleRate))
    simp only [samplesOf]
    omega
  constructor
  · intro st audioData j dummy hj
    simp only [processAudioData] at hj ⊢
    set cs := samplesOf chunkSize sampleRate with hcs
    set os := samplesOf overlap sampleRate with hosdef
    set buffer := st.audioBuffer ++ audioData with hbuf
    have hjlt : j < (processLoop cs (cs - os) sampleRate buffer st.chunkCounter).1.length := by
      omega
    have hspec1 := processLoop_spec cs (cs - os) sampleRate dummy buffer.length buffer le_rfl
      st.chunkCounter j hjlt
    have hspec2 := processLoop_spec cs (cs - os) sampleRate dummy buffer.length buffer le_rfl
      st.chunkCounter (j + 1) hj
    have key : ((buffer.drop ((cs - os) * j)).take cs).drop (cs - os) =
        (buffer.drop ((cs - os) * (j + 1))).take os := by
      rw [List.drop_take, List.drop_drop]
      have h1 : cs - (cs - os) = os := by omega
      have h2 : (cs - os) * j + (cs - os) = (cs - os) * (j + 1) := (Nat.mul_succ _ _).symm
      rw [h1, h2]
    constructor
    · rw [hspec1.1, hspec2.1, key, List.take_take, min_eq_left hos]
    · rw [hspec1.1, key, List.length_take]
      have := hspec2.2
      omega
  · intro h52 h12 samples h96
    subst h52
    subst h12
    have hcs : samplesOf ((5 : ℚ) / 2) 16000 = 40000 :=
      of_decide_eq_true (by with_unfolding_all rfl)
    have hov : samplesOf ((1 : ℚ) / 2) 16000 = 8000 :=
      of_decide_eq_true (by with_unfolding_all rfl)
    have hsub : (40000 : ℕ) - 8000 = 32000 := by norm_num
    have step1 : processLoop 40000 32000 16000 samples 0 =
        (⟨0, samples.take 40000, 16000, ((samples.take 40000).length : ℚ) / (16000 : ℚ),
            false⟩ ::
          (processLoop 40000 32000 16000 (samples.drop 32000) 1).1,
         (processLoop 40000 32000 16000 (samples.drop 32000) 1).2) :=
      processLoop_unfold_pos _ _ _ _ _ ⟨by omega, by norm_num, by norm_num⟩
    have step2 : processLoop 40000 32000 16000 (samples.drop 32000) 1 =
        (⟨1, (samples.drop 32000).take 40000, 16000,
            (((samples.drop 32000).take 40000).length : ℚ) / (16000 : ℚ), false⟩ ::
          (processLoop 40000 32000 16000 ((samples.drop 32000).drop 32000) 2).1,
         (processLoop 40000 32000 16000 ((samples.drop 32000).drop 32000) 2).2) :=
      processLoop_unfold_pos _ _ _ _ _ ⟨by rw [List.length_drop]; omega, by norm_num,
        by norm_num⟩
    have hdd : (samples.drop 32000).drop 32000 = samples.drop 64000 := by
      rw [List.drop_drop]
    have step3 : processLoop 40000 32000 16000 (samples.drop 64000) 2 =
        ([], samples.drop 64000, 2) := by
      refine processLoop_unfold_neg _ _ _ _ _ ?_
      rintro ⟨h1, -⟩
      rw [List.length_drop, h96] at h1
      omega
    simp only [processAudioData, hcs, hov, hsub, List.nil_append]
    rw [step1, step2, hdd, step3]
    refine ⟨by simp, by simp, by rw [List.length_drop, h96], ?_, ?_⟩
    · rw [processRemainingBuffer]
      rw [if_neg (by simp only [List.length_drop, h96]; omega)]
      simp
    · rw [processRemainingBuffer]
      rw [if_neg (by simp only [List.length_drop, h96]; omega)]
      simp

/-- C1 witness: the theorem applied to 6 seconds of silence at 16 kHz with
2.5 s chunks and 0.5 s overlap. -/
theorem c1_witness :
    (processAudioData (5 / 2) (1 / 2) 16000 ⟨[], 0⟩ (List.replicate 96000 (0 : ℚ))).1.map
        ChunkData.audioData =
      [(List.replicate 96000 (0 : ℚ)).take 40000,
        ((List.replicate 96000 (0 : ℚ)).drop 32000).take 40000] ∧
    (processRemainingBuffer 16000
        (processAudioData (5 / 2) (1 / 2) 16000 ⟨[], 0⟩
            (List.replicate 96000 (0 : ℚ))).2).1.map ChunkData.isFinal = [true] := by
  have h := (c1_overlap (5 / 2) (1 / 2) 16000 (by norm_num) (by norm_num)).2 rfl rfl
    (List.replicate 96000 (0 : ℚ)) (by rw [List.length_replicate])
  exact ⟨h.1, h.2.2.2.2⟩

/-- Facts about the shared check-then-delete settling pattern of the
response and timeout paths. -/
lemma settlePair_facts (s : CoordState) (rid : ℕ) (k : SettleKind) (hinv : PendingLe s)
    (r : CoordState × Option Settlement)
    (hr : r = if rid ∈ s.pending then
        ({ s with pending := s.pending.filter (fun x => x ≠ rid) }, some ⟨rid, k⟩)
      else (s, none)) :
    PendingLe r.1 ∧ s.messageId ≤ r.1.messageId ∧
      (∀ st, r.2 = some st → st.id ∈ s.pending ∧ st.id ∉ r.1.pending) ∧
      (∀ i, i ∉ s.pending → i ∉ r.1.pending) := by
  subst hr
  by_cases h : rid ∈ s.pending
  · rw [if_pos h]
    refine ⟨?_, le_rfl, ?_, ?_⟩
    · intro i hi
      rw [List.mem_filter] at hi
      exact hinv i hi.1
    · intro st hst
      simp only [Option.some.injEq] at hst
      subst hst
      refine ⟨h, ?_⟩
      simp [List.mem_filter]
    · intro i hno hcon
      rw [List.mem_filter] at hcon
      exact hno hcon.1
  · rw [if_neg h]
    exact ⟨hinv, le_rfl, by simp, fun i hno => hno⟩

/-- One coordinator step preserves the id invariant, never lowers
`messageId`, only settles ids it removes from the pending table, and never
revives an id that is dead (not pending and not allocatable again). -/
lemma coordStep_facts (s : CoordState) (e : CoordEvent) (hinv : PendingLe s) :
    PendingLe (coordStep s e).1 ∧
      s.messageId ≤ (coordStep s e).1.messageId ∧
      (∀ st, (coordStep s e).2 = some st →
        st.id ∈ s.pending ∧ st.id ∉ (coordStep s e).1.pending) ∧
      (∀ i, i ∉ s.pending → i ≤ s.messageId → i ∉ (coordStep s e).1.pending) := by
  cases e with
  | send =>
    refine ⟨?_, by simp [coordStep, sendWorkerMessage], by simp [coordStep], ?_⟩
    · intro i hi
      simp only [coordStep, sendWorkerMessage, List.mem_append, List.mem_singleton] at hi ⊢
      rcases hi with h | h
      · exact le_trans (hinv i h) (Nat.le_succ _)
      · omega
    · intro i hno hle
      simp only [coordStep, sendWorkerMessage, List.mem_append, List.mem_singleton]
      rintro (h | h)
      · exact hno h
      · omega
  | deliver m =>
    cases m with
    | progress oid p =>
      exact ⟨fun i hi => hinv i hi, le_rfl, by simp [coordStep, handleWorkerMessage],
        fun i hno _ => hno⟩
    | success rid =>
      have F := settlePair_facts s rid .resolved hinv (coordStep s (.deliver (.success rid))) rfl
      exact ⟨F.1, F.2.1, F.2.2.1, fun i hno _ => F.2.2.2 i hno⟩
    | error rid =>
      have F := settlePair_facts s rid .rejectedError hinv
        (coordStep s (.deliver (.error rid))) rfl
      exact ⟨F.1, F.2.1, F.2.2.1, fun i hno _ => F.2.2.2 i hno⟩
  | fire fid =>
    have F := settlePair_facts s fid .rejectedTimeout hinv (coordStep s (.fire fid)) rfl
    exact ⟨F.1, F.2.1, F.2.2.1, fun i hno _ => F.2.2.2 i hno⟩

/-- Over any event sequence, at most one settlement carries a given id; and
an id that is dead (not pending, not allocatable) is never settled again. -/
lemma coordRun_count (id : ℕ) :
    ∀ (events : List CoordEvent) (s : CoordState), PendingLe s →
      ((coordRun s events).2.countP (fun st => decide (st.id = id))) ≤ 1 ∧
      (id ∉ s.pending ∧ id ≤ s.messageId →
        ((coordRun s events).2.countP (fun st => decide (st.id = id))) = 0) := by
  intro events
  induction events with
  | nil =>
    intro s hinv
    simp [coordRun]
  | cons e es ih =>
    intro s hinv
    obtain ⟨hinv', hmono, hsettle, hdead⟩ := coordStep_facts s e hinv
    have hrun : coordRun s (e :: es) =
        ((coordRun (coordStep s e).1 es).1,
          (coordStep s e).2.toList ++ (coordRun (coordStep s e).1 es).2) := rfl
    rw [hrun]
    rcases hr : (coordStep s e).2 with _ | st
    · simp only [Option.toList_none, List.nil_append]
      exact ⟨(ih _ hinv').1,
        fun hd => (ih _ hinv').2 ⟨hdead id hd.1 hd.2, le_trans hd.2 hmono⟩⟩
    · simp only [Option.toList_some, List.singleton_append, List.countP_cons]
      by_cases hpid : st.id = id
      · have hmem := (hsettle st hr).1
        have hout := (hsettle st hr).2
        have hle2 : id ≤ (coordStep s e).1.messageId :=
          le_trans (hpid ▸ hinv st.id hmem) hmono
        have hrest : ((coordRun (coordStep s e).1 es).2.countP
            (fun st => decide (st.id = id))) = 0 :=
          (ih _ hinv').2 ⟨hpid ▸ hout, hle2⟩
        constructor
        · rw [hrest]
          simp [hpid]
        · rintro ⟨hno, -⟩
          exact absurd (hpid ▸ hmem) hno
      · constructor
        · simpa [hpid] using (ih _ hinv').1
        · rintro ⟨hno, hle⟩
          simpa [hpid] using (ih _ hinv').2 ⟨hdead id hno hle, le_trans hle hmono⟩

/-- C10: every pending request settles at most once: over any event sequence
from the initial coordinator state, at most one settlement (resolve with the
response, reject with the response error, or reject with the timeout
failure) is ever emitted for a given message id, because both the response
path and the timeout path check the pending table and delete the entry
before settling, and allocated ids are never reused. -/
theorem c10_settle_at_most_once (events : List CoordEvent) (id : ℕ) :
    ((coordRun coordInit events).2.countP (fun st => decide (st.id = id))) ≤ 1 :=
  (coordRun_count id events coordInit (by intro i hi; simp [coordInit] at hi)).1

end Transcription
